import Mathlib

/-
Shallow embedding of the escallmatch library.

The repository contains two implementations of the same matcher:
  * src/index.js          (the current one; configurable visitor keys)
  * src/unnamed/part_000  (an earlier one; fixed default visitor keys)

Both work over ESTree-style AST nodes produced by esprima and consumed via
estraverse / espurify / deep-equal.  We model such nodes generically: a node
has a type tag (a string such as "CallExpression"), a source-position marker
`loc` (standing for the whole loc/range/raw metadata block esprima attaches,
which espurify strips), scalar attributes (such as an Identifier's `name`),
single-node children (such as a CallExpression's `callee`) and node-list
children (such as a CallExpression's `arguments`).  Two independently parsed
occurrences of the same text differ only in their `loc` markers.
-/

inductive Node : Type where
  | mk (ty : String) (loc : Nat) (attrs : List (String × String))
       (sub : List (String × Node)) (subList : List (String × List Node))

/- Structural equality on nodes.  This models the `deep-equal` package as used
by the library: both arguments are always plain espurify output (nested
records and arrays of records), on which deep-equal is exactly recursive
field-by-field equality. -/

mutual
def nodeBeq : Node → Node → Bool
  | .mk ty1 loc1 attrs1 sub1 subList1, .mk ty2 loc2 attrs2 sub2 subList2 =>
    ty1 == ty2 && loc1 == loc2 && attrs1 == attrs2 && subBeq sub1 sub2 &&
      subListBeq subList1 subList2
termination_by structural a _ => a
def subBeq : List (String × Node) → List (String × Node) → Bool
  | [], [] => true
  | (k1, n1) :: r1, (k2, n2) :: r2 => k1 == k2 && nodeBeq n1 n2 && subBeq r1 r2
  | _, _ => false
termination_by structural a _ => a
def subListBeq : List (String × List Node) → List (String × List Node) → Bool
  | [], [] => true
  | (k1, ns1) :: r1, (k2, ns2) :: r2 => k1 == k2 && listBeq ns1 ns2 && subListBeq r1 r2
  | _, _ => false
termination_by structural a _ => a
def listBeq : List Node → List Node → Bool
  | [], [] => true
  | n1 :: r1, n2 :: r2 => nodeBeq n1 n2 && listBeq r1 r2
  | _, _ => false
termination_by structural a _ => a
end

def Node.ty : Node → String
  | .mk t _ _ _ _ => t

def Node.attr : Node → String → Option String
  | .mk _ _ attrs _ _, key => List.lookup key attrs

def Node.childOne : Node → String → Option Node
  | .mk _ _ _ sub _, key => List.lookup key sub

def Node.childMany : Node → String → List Node
  | .mk _ _ _ _ subList, key => (List.lookup key subList).getD []

/- Stand-in for the JavaScript value `undefined`, read when a child slot is
missing.  Nodes produced by the parser always carry the slots the library
reads (every CallExpression has `callee` and `arguments`, every Identifier a
`name`, ...), so on parser output this sentinel is never consulted. -/
def jsUndefined : Node := .mk "undefined" 0 [] [] []

/- `node.callee` as the library reads it. -/
def calleeOf (node : Node) : Node := (node.childOne "callee").getD jsUndefined

/- `node.arguments` as the library reads it. -/
def argumentsOf (node : Node) : List Node := node.childMany "arguments"

/- `node.name` as the library reads it (an Identifier's name). -/
def nameOf (node : Node) : String := (node.attr "name").getD ""

/- espurify: deep copy with all location/range metadata stripped.  In the
model the whole metadata block is the `loc` marker, so purification resets it
to a canonical value everywhere, keeping exactly the semantic structure. -/
mutual
def espurify : Node → Node
  | .mk ty _ attrs sub subList => .mk ty 0 attrs (espurifySub sub) (espurifySubList subList)
termination_by structural a => a
def espurifySub : List (String × Node) → List (String × Node)
  | [] => []
  | (k, n) :: rest => (k, espurify n) :: espurifySub rest
termination_by structural a => a
def espurifySubList : List (String × List Node) → List (String × List Node)
  | [] => []
  | (k, ns) :: rest => (k, espurifyList ns) :: espurifySubList rest
termination_by structural a => a
def espurifyList : List Node → List Node
  | [] => []
  | n :: rest => espurify n :: espurifyList rest
termination_by structural a => a
end

/- deep-equal on purified nodes (see the note at nodeBeq). -/
def deepEqual (a b : Node) : Bool := nodeBeq a b

/- estraverse.VisitorKeys, restricted to the node kinds exercised in this
development; the real table lists the child-field names of every ESTree node
kind.  General theorems below quantify over arbitrary key tables. -/
def defaultVisitorKeys : String → List String
  | "Program" => ["body"]
  | "ExpressionStatement" => ["expression"]
  | "CallExpression" => ["callee", "arguments"]
  | "MemberExpression" => ["object", "property"]
  | "ArrayExpression" => ["elements"]
  | _ => []

/- astDepth: estraverse visits the subtree following the visitor-key table
and records the maximum length of `this.path()`.  The path to a node reached
through a single-node field has one more component than its parent's path
(the field name); an element of a node-list field adds two components (the
field name and the array index).  The root's path is null, counted as 0.
The recursion below computes the same maximum; visiting order does not
matter for a maximum, so children are scanned in stored order and filtered
by key-table membership rather than the reverse. -/
mutual
def relDepth (vk : String → List String) : Node → Nat
  | .mk ty _ _ sub subList =>
    max (subDepth vk (vk ty) sub) (subListDepth vk (vk ty) subList)
termination_by structural a => a
def subDepth (vk : String → List String) (keys : List String) : List (String × Node) → Nat
  | [] => 0
  | (k, c) :: rest => max (if k ∈ keys then 1 + relDepth vk c else 0) (subDepth vk keys rest)
termination_by structural a => a
def subListDepth (vk : String → List String) (keys : List String) :
    List (String × List Node) → Nat
  | [] => 0
  | (k, ns) :: rest => max (if k ∈ keys then listDepth vk ns else 0) (subListDepth vk keys rest)
termination_by structural a => a
def listDepth (vk : String → List String) : List Node → Nat
  | [] => 0
  | n :: rest => max (2 + relDepth vk n) (listDepth vk rest)
termination_by structural a => a
end

def astDepth (ast : Node) (visitorKeys : String → List String) : Nat := relDepth visitorKeys ast

/- isSameAstDepth runs the same traversal as astDepth but breaks out as soon
as the running maximum exceeds `depth`; breaking early can only stop the
maximum from growing further, and the function compares the result with
`depth` for equality, so the outcome is exactly astDepth = depth. -/
def isSameAstDepth (ast : Node) (depth : Nat) (visitorKeys : String → List String) : Bool :=
  astDepth ast visitorKeys == depth

/- ------------------------------------------------------------------ -/
/- src/index.js                                                       -/
/- ------------------------------------------------------------------ -/

def notCallExprMessage : String := "Argument should be in the form of CallExpression"
def duplicatedArgMessage : String := "Duplicate argument name: "
def invalidFormMessage : String := "Argument should be in the form of `name` or `[name]`"

/- Construction-time failures.  `thrown` is an Error raised explicitly by the
library with the given message; `typeError` is a TypeError the JavaScript
runtime raises when the code dereferences a property of `undefined`. -/
inductive JsError : Type where
  | thrown (msg : String)
  | typeError (msg : String)
deriving DecidableEq, Repr

def undefinedMemberMessage : String := "Cannot read property of undefined"

instance {ε α : Type} [DecidableEq ε] [DecidableEq α] : DecidableEq (Except ε α) := fun a b =>
  match a, b with
  | .ok x, .ok y => decidable_of_iff (x = y) (by simp)
  | .error x, .error y => decidable_of_iff (x = y) (by simp)
  | .ok _, .error _ => isFalse (fun h => Except.noConfusion h)
  | .error _, .ok _ => isFalse (fun h => Except.noConfusion h)

def isCallExpression (node : Node) : Bool := node.ty == "CallExpression"

def isCalleeOfParent (currentNode parentNode : Node) : Bool :=
  parentNode.ty == "CallExpression" &&
    (match parentNode.childOne "callee" with
     | some c => nodeBeq c currentNode
     | none => false)

def identifiers (node : Node) : Bool := node.ty == "Identifier"

def isCalleeMatched (callSignature : Node) (signatureCalleeDepth : Nat) (node : Node)
    (visitorKeys : String → List String) : Bool :=
  if !isCallExpression node then false
  else if !isSameAstDepth (calleeOf node) signatureCalleeDepth visitorKeys then false
  else deepEqual (espurify (calleeOf callSignature)) (espurify (calleeOf node))

structure ArgSig : Type where
  name : String
  kind : String
deriving DecidableEq, Repr

def toArgumentSignature (argSignatureNode : Node) : Option ArgSig :=
  if argSignatureNode.ty == "Identifier" then
    some { name := nameOf argSignatureNode, kind := "mandatory" }
  else if argSignatureNode.ty == "ArrayExpression" then
    some { name := nameOf (((argSignatureNode.childMany "elements").head?).getD jsUndefined),
           kind := "optional" }
  else none

structure Matcher : Type where
  visitorKeys : String → List String
  signatureAst : Node
  signatureCalleeDepth : Nat
  numMaxArgs : Nat
  numMinArgs : Nat

/- The Matcher constructor; `options` carries the optional visitorKeys
override (`options.visitorKeys || estraverse.VisitorKeys`). -/
def Matcher.make (signatureAst : Node) (options : Option (String → List String)) : Matcher :=
  let vk := options.getD defaultVisitorKeys
  { visitorKeys := vk
    signatureAst := signatureAst
    signatureCalleeDepth := astDepth (calleeOf signatureAst) vk
    numMaxArgs := (argumentsOf signatureAst).length
    numMinArgs := ((argumentsOf signatureAst).filter identifiers).length }

def Matcher.test (m : Matcher) (currentNode : Node) : Bool :=
  if isCalleeMatched m.signatureAst m.signatureCalleeDepth currentNode m.visitorKeys then
    let numArgs := (argumentsOf currentNode).length
    decide (m.numMinArgs ≤ numArgs ∧ numArgs ≤ m.numMaxArgs)
  else false

def Matcher.argumentSignatures (m : Matcher) : List (Option ArgSig) :=
  (argumentsOf m.signatureAst).map toArgumentSignature

/- One step of the reduce in matchArgument.  The two ifs are sequential in
the source as well (not an if/else); a signature entry never has both kinds,
so at most one of them fires.  A `none` entry (an argument node that is
neither an Identifier nor an ArrayExpression) cannot occur in a validated
signature; the source would crash reading `.kind` of null there, and the
model skips it. -/
def pushMatched (st : List ArgSig × Nat) (argSig : Option ArgSig) : List ArgSig × Nat :=
  match argSig with
  | none => st
  | some s =>
    let st1 := if s.kind == "mandatory" then (st.1 ++ [s], st.2) else st
    if s.kind == "optional" && decide (0 < st1.2) then (st1.1 ++ [s], st1.2 - 1) else st1

/- indexOf with JavaScript reference identity modelled as node equality; the
`loc` markers make distinct parse occurrences distinct nodes.  `none` stands
for the -1 of the original. -/
def indexOfNode : List Node → Node → Option Nat
  | [], _ => none
  | y :: ys, x => if nodeBeq y x then some 0 else (indexOfNode ys x).map (· + 1)

/- matchArgument.  When indexOf yields -1 the source reads
matchedSignatures[-1], which is undefined, i.e. an absent result. -/
def Matcher.matchArgument (m : Matcher) (currentNode parentNode : Node) : Option ArgSig :=
  if isCalleeOfParent currentNode parentNode then none
  else if m.test parentNode then
    let numOptional := (argumentsOf parentNode).length - m.numMinArgs
    let matchedSignatures := (m.argumentSignatures.foldl pushMatched ([], numOptional)).1
    match indexOfNode (argumentsOf parentNode) currentNode with
    | none => none
    | some indexOfCurrentArg => matchedSignatures.get? indexOfCurrentArg
  else none

def validateArg (arg : Node) : Except JsError String :=
  if arg.ty == "Identifier" then .ok (nameOf arg)
  else if arg.ty == "ArrayExpression" then
    match arg.childMany "elements" with
    | [inner] =>
      if inner.ty == "Identifier" then .ok (nameOf inner)
      else .error (.thrown invalidFormMessage)
    | _ => .error (.thrown invalidFormMessage)
  else .error (.thrown invalidFormMessage)

/- The forEach body of validateApiExpression, with the `names` object (used
as a set of already seen names) made explicit. -/
def validateArgsGo (names : List String) : List Node → Except JsError Unit
  | [] => .ok ()
  | arg :: rest => do
    let name ← validateArg arg
    if name ∈ names then .error (.thrown (duplicatedArgMessage ++ name))
    else validateArgsGo (name :: names) rest

def validateApiExpression (callExpression : Node) : Except JsError Unit :=
  if callExpression.ty ≠ "CallExpression" then .error (.thrown notCallExprMessage)
  else validateArgsGo [] (argumentsOf callExpression)

/- extractExpressionFrom.  `tree.body[0]` on an empty body yields undefined,
and the subsequent `statement.type` read is then a runtime TypeError, not a
library-thrown Error.  Likewise a statement with no `expression` slot would
crash inside validateApiExpression (parser output always has the slot). -/
def extractExpressionFrom (tree : Node) : Except JsError Node :=
  match (tree.childMany "body").head? with
  | none => .error (.typeError undefinedMemberMessage)
  | some statement =>
    if statement.ty ≠ "ExpressionStatement" then .error (.thrown notCallExprMessage)
    else
      match statement.childOne "expression" with
      | none => .error (.typeError undefinedMemberMessage)
      | some expression => do
        validateApiExpression expression
        pure expression

/- createMatcher, taking the already parsed signature tree (esprima.parse is
the external parser). -/
def createMatcher (tree : Node) (options : Option (String → List String)) :
    Except JsError Matcher := do
  let ast ← extractExpressionFrom tree
  pure (Matcher.make ast options)

/- ------------------------------------------------------------------ -/
/- src/unnamed/part_000 (the earlier implementation)                  -/
/- ------------------------------------------------------------------ -/

structure Matcher0 : Type where
  signatureAst : Node
  numMaxArgs : Nat
  numMinArgs : Nat

def Matcher0.make (signatureAst : Node) : Matcher0 :=
  { signatureAst := signatureAst
    numMaxArgs := (argumentsOf signatureAst).length
    numMinArgs := ((argumentsOf signatureAst).filter identifiers).length }

/- This version also checks that the signature itself is a call expression,
and always traverses with the estraverse default keys. -/
def isCalleeMatchedV0 (callExp1 callExp2 : Node) : Bool :=
  if !(isCallExpression callExp1 && isCallExpression callExp2) then false
  else if astDepth (calleeOf callExp1) defaultVisitorKeys
      != astDepth (calleeOf callExp2) defaultVisitorKeys then false
  else deepEqual (espurify (calleeOf callExp1)) (espurify (calleeOf callExp2))

def Matcher0.test (m : Matcher0) (currentNode : Node) : Bool :=
  if isCalleeMatchedV0 m.signatureAst currentNode then
    let numArgs := (argumentsOf currentNode).length
    decide (m.numMinArgs ≤ numArgs ∧ numArgs ≤ m.numMaxArgs)
  else false

/- Textually the same case switch as toArgumentSignature in src/index.js. -/
def argMatchResult (argSignatureNode : Node) : Option ArgSig :=
  if argSignatureNode.ty == "Identifier" then
    some { name := nameOf argSignatureNode, kind := "mandatory" }
  else if argSignatureNode.ty == "ArrayExpression" then
    some { name := nameOf (((argSignatureNode.childMany "elements").head?).getD jsUndefined),
           kind := "optional" }
  else none

/- matchArgument of the earlier implementation indexes into the signature's
own argument list with the candidate's position.  When indexOf yields -1 the
source reads this.signatureAst.arguments[-1], which is undefined, and
argMatchResult then dereferences undefined.type: a runtime TypeError. -/
def Matcher0.matchArgument (m : Matcher0) (currentNode parentNode : Node) :
    Except JsError (Option ArgSig) :=
  if isCalleeOfParent currentNode parentNode then .ok none
  else if m.test parentNode then
    match indexOfNode (argumentsOf parentNode) currentNode with
    | none => .error (.typeError undefinedMemberMessage)
    | some indexOfCurrentArg =>
      match (argumentsOf m.signatureAst).get? indexOfCurrentArg with
      | none => .error (.typeError undefinedMemberMessage)
      | some argNode => .ok (argMatchResult argNode)
  else .ok none

/- ------------------------------------------------------------------ -/
/- Concrete nodes, as esprima would produce them (distinct loc markers
   standing for distinct source positions)                            -/
/- ------------------------------------------------------------------ -/

def identN (loc : Nat) (s : String) : Node := .mk "Identifier" loc [("name", s)] [] []

def literalN (loc : Nat) (v : String) : Node := .mk "Literal" loc [("value", v)] [] []

def memberN (loc : Nat) (obj prop : Node) : Node :=
  .mk "MemberExpression" loc [("computed", "false")] [("object", obj), ("property", prop)] []

def callN (loc : Nat) (callee : Node) (args : List Node) : Node :=
  .mk "CallExpression" loc [] [("callee", callee)] [("arguments", args)]

def arrayN (loc : Nat) (elems : List Node) : Node :=
  .mk "ArrayExpression" loc [] [] [("elements", elems)]

def exprStmtN (loc : Nat) (e : Node) : Node :=
  .mk "ExpressionStatement" loc [] [("expression", e)] []

def programN (loc : Nat) (body : List Node) : Node :=
  .mk "Program" loc [] [] [("body", body)]

/- The signature f(a, [b]): one mandatory then one optional parameter. -/
def sigFab : Node := callN 1 (identN 2 "f") [identN 3 "a", arrayN 4 [identN 5 "b"]]

/- The signature f([a], b): an optional parameter declared before a
mandatory one. -/
def sigFoptA : Node := callN 1 (identN 2 "f") [arrayN 3 [identN 4 "a"], identN 5 "b"]

/- The candidate call f(1). -/
def litOne : Node := literalN 12 "1"
def candF1 : Node := callN 10 (identN 11 "f") [litOne]

/- The candidate call f(1, 2). -/
def litOne' : Node := literalN 22 "1"
def litTwo : Node := literalN 23 "2"
def candF12 : Node := callN 20 (identN 21 "f") [litOne', litTwo]

/- ------------------------------------------------------------------ -/
/- Spec-side notions used to state the claims                         -/
/- ------------------------------------------------------------------ -/

/- The number of mandatory parameters of a signature (its identifier
arguments) and the number of optional ones (its array-wrapped arguments):
the spec's k and m. -/
def mandatoryCount (sig : Node) : Nat :=
  ((argumentsOf sig).filter (fun a => a.ty == "Identifier")).length

def optionalCount (sig : Node) : Nat :=
  ((argumentsOf sig).filter (fun a => a.ty == "ArrayExpression")).length

/- The descriptor produced for a mandatory (identifier) signature argument
and for an optional (array-wrapped) one. -/
def mandSigOf (a : Node) : ArgSig := { name := nameOf a, kind := "mandatory" }

def optSigOf (a : Node) : ArgSig :=
  { name := nameOf (((a.childMany "elements").head?).getD jsUndefined), kind := "optional" }

/- ------------------------------------------------------------------ -/
/- Theorems                                                           -/
/- ------------------------------------------------------------------ -/

mutual
theorem nodeBeq_iff : (a b : Node) → nodeBeq a b = true ↔ a = b
  | .mk ty1 loc1 attrs1 sub1 subList1, .mk ty2 loc2 attrs2 sub2 subList2 => by
    simp [nodeBeq, subBeq_iff sub1 sub2, subListBeq_iff subList1 subList2, Node.mk.injEq,
      and_assoc]
theorem subBeq_iff : (a b : List (String × Node)) → subBeq a b = true ↔ a = b
  | [], [] => by simp [subBeq]
  | [], (k2, n2) :: r2 => by simp [subBeq]
  | (k1, n1) :: r1, [] => by simp [subBeq]
  | (k1, n1) :: r1, (k2, n2) :: r2 => by
    simp [subBeq, nodeBeq_iff n1 n2, subBeq_iff r1 r2, Prod.ext_iff, and_assoc]
theorem subListBeq_iff : (a b : List (String × List Node)) → subListBeq a b = true ↔ a = b
  | [], [] => by simp [subListBeq]
  | [], (k2, ns2) :: r2 => by simp [subListBeq]
  | (k1, ns1) :: r1, [] => by simp [subListBeq]
  | (k1, ns1) :: r1, (k2, ns2) :: r2 => by
    simp [subListBeq, listBeq_iff ns1 ns2, subListBeq_iff r1 r2, Prod.ext_iff, and_assoc]
theorem listBeq_iff : (a b : List Node) → listBeq a b = true ↔ a = b
  | [], [] => by simp [listBeq]
  | [], n2 :: r2 => by simp [listBeq]
  | n1 :: r1, [] => by simp [listBeq]
  | n1 :: r1, n2 :: r2 => by simp [listBeq, nodeBeq_iff n1 n2, listBeq_iff r1 r2]
end

instance : DecidableEq Node := fun a b => decidable_of_iff _ (nodeBeq_iff a b)

/- Purification commutes with everything the matcher inspects. -/

theorem ty_espurify (n : Node) : (espurify n).ty = n.ty := by
  cases n
  simp [espurify, Node.ty]

theorem lookup_espurifySub (key : String) :
    ∀ l : List (String × Node),
      List.lookup key (espurifySub l) = (List.lookup key l).map espurify
  | [] => rfl
  | (k, n) :: rest => by
    by_cases h : key == k <;>
      simp [espurifySub, List.lookup, h, lookup_espurifySub key rest]

theorem lookup_espurifySubList (key : String) :
    ∀ l : List (String × List Node),
      List.lookup key (espurifySubList l) = (List.lookup key l).map espurifyList
  | [] => rfl
  | (k, ns) :: rest => by
    by_cases h : key == k <;>
      simp [espurifySubList, List.lookup, h, lookup_espurifySubList key rest]

theorem length_espurifyList : ∀ l : List Node, (espurifyList l).length = l.length
  | [] => rfl
  | _ :: rest => by simp [espurifyList, length_espurifyList rest]

theorem childOne_espurify (n : Node) (key : String) :
    (espurify n).childOne key = (n.childOne key).map espurify := by
  cases n
  simp [espurify, Node.childOne, lookup_espurifySub]

theorem childMany_espurify (n : Node) (key : String) :
    (espurify n).childMany key = espurifyList (n.childMany key) := by
  cases n with
  | mk ty loc attrs sub subList =>
    simp only [espurify, Node.childMany, lookup_espurifySubList]
    cases List.lookup key subList <;> simp [espurifyList]

theorem calleeOf_espurify (n : Node) : calleeOf (espurify n) = espurify (calleeOf n) := by
  simp only [calleeOf, childOne_espurify]
  cases n.childOne "callee" <;> simp [jsUndefined, espurify, espurifySub, espurifySubList]

theorem length_argumentsOf_espurify (n : Node) :
    (argumentsOf (espurify n)).length = (argumentsOf n).length := by
  simp [argumentsOf, childMany_espurify, length_espurifyList]

mutual
theorem relDepth_espurify (vk : String → List String) :
    (n : Node) → relDepth vk (espurify n) = relDepth vk n
  | .mk ty loc attrs sub subList => by
    simp [espurify, relDepth, subDepth_espurifySub, subListDepth_espurifySubList]
theorem subDepth_espurifySub (vk : String → List String) (keys : List String) :
    (l : List (String × Node)) → subDepth vk keys (espurifySub l) = subDepth vk keys l
  | [] => rfl
  | (k, n) :: rest => by
    simp [espurifySub, subDepth, relDepth_espurify, subDepth_espurifySub vk keys rest]
theorem subListDepth_espurifySubList (vk : String → List String) (keys : List String) :
    (l : List (String × List Node)) →
      subListDepth vk keys (espurifySubList l) = subListDepth vk keys l
  | [] => rfl
  | (k, ns) :: rest => by
    simp [espurifySubList, subListDepth, listDepth_espurifyList,
      subListDepth_espurifySubList vk keys rest]
theorem listDepth_espurifyList (vk : String → List String) :
    (l : List Node) → listDepth vk (espurifyList l) = listDepth vk l
  | [] => rfl
  | n :: rest => by
    simp [espurifyList, listDepth, relDepth_espurify, listDepth_espurifyList vk rest]
end

theorem astDepth_espurify (n : Node) (vk : String → List String) :
    astDepth (espurify n) vk = astDepth n vk := by
  simp [astDepth, relDepth_espurify]
theorem astDepth_eq_of_espurify_eq (a b : Node) (vk : String → List String)
    (h : espurify a = espurify b) : astDepth a vk = astDepth b vk := by
  rw [← astDepth_espurify a, ← astDepth_espurify b, h]

/- Matcher.test written as one boolean formula. -/
theorem Matcher.test_eq (m : Matcher) (N : Node) :
    m.test N = (isCallExpression N &&
      isSameAstDepth (calleeOf N) m.signatureCalleeDepth m.visitorKeys &&
      deepEqual (espurify (calleeOf m.signatureAst)) (espurify (calleeOf N)) &&
      decide (m.numMinArgs ≤ (argumentsOf N).length ∧
        (argumentsOf N).length ≤ m.numMaxArgs)) := by
  unfold Matcher.test isCalleeMatched
  by_cases h1 : isCallExpression N <;>
    by_cases h2 : isSameAstDepth (calleeOf N) m.signatureCalleeDepth m.visitorKeys <;>
      by_cases h3 : deepEqual (espurify (calleeOf m.signatureAst)) (espurify (calleeOf N)) <;>
        simp [h1, h2, h3]

theorem Matcher.test_true_iff (m : Matcher) (N : Node) :
    m.test N = true ↔
      (N.ty = "CallExpression" ∧
       astDepth (calleeOf N) m.visitorKeys = m.signatureCalleeDepth ∧
       espurify (calleeOf m.signatureAst) = espurify (calleeOf N) ∧
       m.numMinArgs ≤ (argumentsOf N).length ∧
       (argumentsOf N).length ≤ m.numMaxArgs) := by
  rw [Matcher.test_eq]
  simp [isCallExpression, isSameAstDepth, deepEqual, nodeBeq_iff, and_assoc]

theorem indexOfNode_none_of_not_mem :
    ∀ (l : List Node) (x : Node), x ∉ l → indexOfNode l x = none
  | [], _, _ => rfl
  | y :: ys, x, h => by
    have hy : ¬ nodeBeq y x = true := fun hb =>
      h (by rw [← (nodeBeq_iff y x).mp hb]; exact List.mem_cons_self _ _)
    have hx : x ∉ ys := fun hmem => h (List.mem_cons_of_mem _ hmem)
    simp [indexOfNode, hy, indexOfNode_none_of_not_mem ys x hx]

theorem indexOfNode_mem :
    ∀ (l : List Node) (x : Node), x ∈ l → ∃ i, indexOfNode l x = some i ∧ i < l.length
  | y :: ys, x, hmem => by
    by_cases h : nodeBeq y x
    · exact ⟨0, by simp [indexOfNode, h], by simp⟩
    · have hx : x ∈ ys := by
        rcases List.mem_cons.mp hmem with h1 | h1
        · exact absurd ((nodeBeq_iff y x).mpr h1.symm) h
        · exact h1
      obtain ⟨i, hi, hlt⟩ := indexOfNode_mem ys x hx
      exact ⟨i + 1, by simp [indexOfNode, h, hi], by simpa using Nat.succ_lt_succ hlt⟩

/-- Claim C2: for the matcher of the signature f(a, [b]), matchArgument maps
the argument of the candidate f(1) to the mandatory descriptor a, and the two
arguments of the candidate f(1, 2) to the mandatory descriptor a and the
optional descriptor b respectively, the descriptors being assigned by the
declared-order walk of the signature's argument list with the optional-budget
rule. -/
theorem claim2_matchArgument_examples :
    (Matcher.make sigFab none).matchArgument litOne candF1 =
        some { name := "a", kind := "mandatory" } ∧
    (Matcher.make sigFab none).matchArgument litOne' candF12 =
        some { name := "a", kind := "mandatory" } ∧
    (Matcher.make sigFab none).matchArgument litTwo candF12 =
        some { name := "b", kind := "optional" } :=
  ⟨by decide, by decide, by decide⟩

/-- Claim C5: a candidate call expression whose callee subtree has a
structural depth different from the matcher's precomputed signature callee
depth never tests true, whatever a deep-equality comparison would say. -/
theorem claim5_depth_mismatch (m : Matcher) (N : Node)
    (hN : N.ty = "CallExpression")
    (hd : astDepth (calleeOf N) m.visitorKeys ≠ m.signatureCalleeDepth) :
    m.test N = false := by
  cases htest : m.test N
  · rfl
  · exact absurd ((Matcher.test_true_iff m N).mp htest).2.1 hd

/-- Witness for claim C5 at the signature a.b() and the candidate a.b.c():
same callee text prefix but different structural depth. -/
theorem claim5_witness :
    (Matcher.make (callN 0 (memberN 1 (identN 2 "a") (identN 3 "b")) []) none).test
      (callN 10 (memberN 11 (memberN 12 (identN 13 "a") (identN 14 "b")) (identN 15 "c")) [])
      = false :=
  claim5_depth_mismatch _ _ (by decide) (by decide)

/-- Claim C6: test is invariant under source-position metadata: candidates
with equal purified forms (equal up to loc markers) receive the same test
verdict, because callee comparison is over purified forms. -/
theorem claim6_purify_invariant (m : Matcher) (n1 n2 : Node)
    (h : espurify n1 = espurify n2) : m.test n1 = m.test n2 := by
  have hty : n1.ty = n2.ty := by rw [← ty_espurify n1, ← ty_espurify n2, h]
  have hcal : espurify (calleeOf n1) = espurify (calleeOf n2) := by
    rw [← calleeOf_espurify, ← calleeOf_espurify, h]
  have hdep : astDepth (calleeOf n1) m.visitorKeys = astDepth (calleeOf n2) m.visitorKeys :=
    astDepth_eq_of_espurify_eq _ _ _ hcal
  have hlen : (argumentsOf n1).length = (argumentsOf n2).length := by
    rw [← length_argumentsOf_espurify n1, ← length_argumentsOf_espurify n2, h]
  rw [Matcher.test_eq, Matcher.test_eq]
  simp only [isCallExpression, isSameAstDepth, hty, hdep, hcal, hlen]

/-- Witness for claim C6: two independently parsed occurrences of
obj.method(x) at different source offsets test identically. -/
theorem claim6_witness :
    (Matcher.make (callN 0 (memberN 1 (identN 2 "obj") (identN 3 "method")) [identN 4 "x"])
        none).test
      (callN 0 (memberN 1 (identN 2 "obj") (identN 3 "method")) [identN 4 "x"]) =
    (Matcher.make (callN 0 (memberN 1 (identN 2 "obj") (identN 3 "method")) [identN 4 "x"])
        none).test
      (callN 50 (memberN 51 (identN 52 "obj") (identN 53 "method")) [identN 54 "x"]) :=
  claim6_purify_invariant _ _ _ (by decide)

/-- Claim C7: when the candidate node sits in the callee slot of a
call-expression parent, matchArgument is absent, whether or not the parent
matches the signature. -/
theorem claim7_callee_is_not_argument (m : Matcher) (currentNode parentNode : Node)
    (hce : parentNode.ty = "CallExpression")
    (hcallee : parentNode.childOne "callee" = some currentNode) :
    m.matchArgument currentNode parentNode = none := by
  have h : isCalleeOfParent currentNode parentNode = true := by
    simp [isCalleeOfParent, hce, hcallee, nodeBeq_iff]
  simp [Matcher.matchArgument, h]

/-- Witness for claim C7: the callee of f(1) maps to absent. -/
theorem claim7_witness :
    (Matcher.make sigFab none).matchArgument (identN 11 "f") candF1 = none :=
  claim7_callee_is_not_argument _ _ _ (by decide) (by decide)

/-- Claim C9: the query operations are total: test always returns a boolean
and matchArgument always returns a descriptor or absent, on every input
node pair. -/
theorem claim9_queries_total (m : Matcher) (N currentNode parentNode : Node) :
    (m.test N = true ∨ m.test N = false) ∧
    (m.matchArgument currentNode parentNode = none ∨
      ∃ d : ArgSig, m.matchArgument currentNode parentNode = some d) := by
  constructor
  · cases m.test N
    · exact .inr rfl
    · exact .inl rfl
  · cases h : m.matchArgument currentNode parentNode
    · exact .inl rfl
    · exact .inr ⟨_, rfl⟩

/-- Claim C4 (amended): a present top-level statement that is not an
expression statement, or whose expression is not a call expression, makes
construction fail with the NotCallExpression error; an absent top-level
statement also fails construction, but with a runtime TypeError from reading
a property of undefined, not with the NotCallExpression error. -/
theorem claim4_extract_expression_errors (tree st : Node) :
    ((tree.childMany "body").head? = none →
      extractExpressionFrom tree = .error (.typeError undefinedMemberMessage)) ∧
    ((tree.childMany "body").head? = some st →
      (st.ty ≠ "ExpressionStatement" →
        extractExpressionFrom tree = .error (.thrown notCallExprMessage)) ∧
      (∀ e : Node, st.childOne "expression" = some e → e.ty ≠ "CallExpression" →
        extractExpressionFrom tree = .error (.thrown notCallExprMessage))) := by
  constructor
  · intro h
    simp [extractExpressionFrom, h]
  · intro h
    constructor
    · intro hst
      simp [extractExpressionFrom, h, hst]
    · intro e he hece
      by_cases hst : st.ty = "ExpressionStatement"
      · simp [extractExpressionFrom, h, hst, he, validateApiExpression, hece, Except.bind]
      · simp [extractExpressionFrom, h, hst]

/-- Counterexample for claim C4 as stated: a parsed tree with no top-level
statement at all (esprima's result for an empty signature string) fails with
a TypeError, not with the NotCallExpression error. -/
theorem claim4_counterexample :
    extractExpressionFrom (programN 0 []) ≠ .error (.thrown notCallExprMessage) ∧
    extractExpressionFrom (programN 0 []) = .error (.typeError undefinedMemberMessage) :=
  ⟨by decide, by decide⟩

/-- Witness for claim C4 at a tree whose sole statement wraps a bare
identifier rather than a call. -/
theorem claim4_witness :
    extractExpressionFrom (programN 0 [exprStmtN 1 (identN 2 "x")]) =
      .error (.thrown notCallExprMessage) :=
  ((claim4_extract_expression_errors (programN 0 [exprStmtN 1 (identN 2 "x")])
      (exprStmtN 1 (identN 2 "x"))).2 (by decide)).2 (identN 2 "x") (by decide) (by decide)

/-- Claim C8: on a matching parent call, a candidate node that is not among
the parent's arguments yields absent from matchArgument, with no error. -/
theorem claim8_unrelated_node_absent (m : Matcher) (currentNode parentNode : Node)
    (ht : m.test parentNode = true)
    (hmem : currentNode ∉ argumentsOf parentNode) :
    m.matchArgument currentNode parentNode = none := by
  have hidx := indexOfNode_none_of_not_mem (argumentsOf parentNode) currentNode hmem
  by_cases hcp : isCalleeOfParent currentNode parentNode <;>
    simp [Matcher.matchArgument, hcp, ht, hidx]

/-- Witness for claim C8: the literal 2 is not an argument of f(1). -/
theorem claim8_witness :
    (Matcher.make sigFab none).matchArgument litTwo candF1 = none :=
  claim8_unrelated_node_absent _ _ _ (by decide) (by decide)

/- Unfolding lemmas for the Except monad operations used in the model. -/
theorem exceptBind_ok {e a b : Type} (x : a) (f : a → Except e b) :
    (Except.ok x >>= f) = f x := rfl

theorem exceptBind_error {e a b : Type} (err : e) (f : a → Except e b) :
    ((Except.error err : Except e a) >>= f) = Except.error err := rfl

theorem validateArg_ty_of_ok (a : Node) (s : String) (h : validateArg a = .ok s) :
    a.ty = "Identifier" ∨ a.ty = "ArrayExpression" := by
  by_cases h1 : a.ty = "Identifier"
  · exact .inl h1
  · by_cases h2 : a.ty = "ArrayExpression"
    · exact .inr h2
    · simp [validateArg, h1, h2] at h

theorem validateArgsGo_types :
    ∀ (args : List Node) (names : List String), validateArgsGo names args = .ok () →
      ∀ a ∈ args, a.ty = "Identifier" ∨ a.ty = "ArrayExpression"
  | [], _, _, a, ha => absurd ha (List.not_mem_nil a)
  | b :: rest, names, h, a, ha => by
    cases hvb : validateArg b with
    | error err => rw [validateArgsGo] at h; simp [hvb, exceptBind_error] at h
    | ok nm =>
      rw [validateArgsGo] at h
      simp only [hvb, exceptBind_ok] at h
      by_cases hmem : nm ∈ names
      · simp [hmem] at h
      · simp only [hmem, if_neg, ite_false] at h
        rcases List.mem_cons.mp ha with h1 | h1
        · exact h1 ▸ validateArg_ty_of_ok b nm hvb
        · exact validateArgsGo_types rest (nm :: names) h a h1

theorem length_split_types :
    ∀ l : List Node, (∀ a ∈ l, a.ty = "Identifier" ∨ a.ty = "ArrayExpression") →
      l.length = (l.filter (fun a => a.ty == "Identifier")).length +
        (l.filter (fun a => a.ty == "ArrayExpression")).length
  | [], _ => rfl
  | a :: rest, h => by
    have hrest := length_split_types rest (fun b hb => h b (List.mem_cons_of_mem _ hb))
    rcases h a (List.mem_cons_self _ _) with h1 | h1 <;>
      simp [List.filter_cons, h1, hrest] <;> omega

/-- Claim C1: for a matcher built from a valid signature with k mandatory
and m optional parameters, test is true exactly on call-expression nodes
whose purified callee equals the purified signature callee and whose
argument count lies in the interval from k to k plus m; in particular test
is false on every non-call node. -/
theorem claim1_test_characterization (sig : Node) (opts : Option (String → List String))
    (N : Node) (hv : validateApiExpression sig = .ok ()) :
    (Matcher.make sig opts).test N = true ↔
      (N.ty = "CallExpression" ∧
       espurify (calleeOf N) = espurify (calleeOf sig) ∧
       mandatoryCount sig ≤ (argumentsOf N).length ∧
       (argumentsOf N).length ≤ mandatoryCount sig + optionalCount sig) := by
  have hce : sig.ty = "CallExpression" := by
    by_contra hne
    simp [validateApiExpression, hne] at hv
  have hargs : ∀ a ∈ argumentsOf sig, a.ty = "Identifier" ∨ a.ty = "ArrayExpression" := by
    rw [validateApiExpression] at hv
    simp only [hce, ne_eq, not_true_eq_false, ite_false, if_neg] at hv
    exact validateArgsGo_types _ _ hv
  have hmax : (argumentsOf sig).length = mandatoryCount sig + optionalCount sig :=
    length_split_types _ hargs
  have hmin : (Matcher.make sig opts).numMinArgs = mandatoryCount sig := rfl
  have hmaxargs : (Matcher.make sig opts).numMaxArgs = mandatoryCount sig + optionalCount sig := by
    simp [Matcher.make, hmax]
  have hsigast : (Matcher.make sig opts).signatureAst = sig := rfl
  have hdepth : (Matcher.make sig opts).signatureCalleeDepth =
      astDepth (calleeOf sig) (Matcher.make sig opts).visitorKeys := rfl
  rw [Matcher.test_true_iff, hsigast, hdepth, hmin, hmaxargs]
  constructor
  · rintro ⟨h1, _h2, h3, h4, h5⟩
    exact ⟨h1, h3.symm, h4, h5⟩
  · rintro ⟨h1, h3, h4, h5⟩
    exact ⟨h1, astDepth_eq_of_espurify_eq _ _ _ h3, h3.symm, h4, h5⟩

/-- Witness for claim C1 at the valid signature f(a, [b]) and the candidate
f(1). -/
theorem claim1_witness :
    validateApiExpression sigFab = .ok () ∧
    ((Matcher.make sigFab none).test candF1 = true ↔
      (candF1.ty = "CallExpression" ∧
       espurify (calleeOf candF1) = espurify (calleeOf sigFab) ∧
       mandatoryCount sigFab ≤ (argumentsOf candF1).length ∧
       (argumentsOf candF1).length ≤ mandatoryCount sigFab + optionalCount sigFab)) :=
  ⟨by decide, claim1_test_characterization sigFab none candF1 (by decide)⟩

/- The reduce of matchArgument pushes every mandatory descriptor of a run of
identifier arguments and leaves the optional budget unchanged. -/
theorem foldl_pushMatched_mand :
    ∀ (mands : List Node), (∀ a ∈ mands, a.ty = "Identifier") →
      ∀ (l2 : List (Option ArgSig)) (acc : List ArgSig) (d : Nat),
        (mands.map toArgumentSignature ++ l2).foldl pushMatched (acc, d) =
          l2.foldl pushMatched (acc ++ mands.map mandSigOf, d)
  | [], _, l2, acc, d => by simp
  | a :: rest, hm, l2, acc, d => by
    have ha : a.ty = "Identifier" := hm a (List.mem_cons_self _ _)
    have hpush : pushMatched (acc, d) (toArgumentSignature a) = (acc ++ [mandSigOf a], d) := by
      simp [toArgumentSignature, ha, pushMatched, mandSigOf]
    rw [List.map_cons, List.cons_append, List.foldl_cons, hpush,
      foldl_pushMatched_mand rest (fun b hb => hm b (List.mem_cons_of_mem _ hb)) l2 _ d]
    simp [List.append_assoc]

/- On a run of array-wrapped (optional) arguments the reduce pushes exactly
the first d of them, d being the optional budget. -/
theorem foldl_pushMatched_opt :
    ∀ (opts' : List Node), (∀ a ∈ opts', a.ty = "ArrayExpression") →
      ∀ (acc : List ArgSig) (d : Nat),
        ((opts'.map toArgumentSignature).foldl pushMatched (acc, d)).1 =
          acc ++ (opts'.take d).map optSigOf
  | [], _, acc, d => by simp
  | a :: rest, ho, acc, d => by
    have ha : a.ty = "ArrayExpression" := ho a (List.mem_cons_self _ _)
    have hrest := fun b hb => ho b (List.mem_cons_of_mem a hb)
    cases d with
    | zero =>
      have hpush : pushMatched (acc, 0) (toArgumentSignature a) = (acc, 0) := by
        simp [toArgumentSignature, ha, pushMatched]
      rw [List.map_cons, List.foldl_cons, hpush, foldl_pushMatched_opt rest hrest acc 0]
      simp
    | succ d' =>
      have hpush : pushMatched (acc, d' + 1) (toArgumentSignature a) =
          (acc ++ [optSigOf a], d') := by
        simp [toArgumentSignature, ha, pushMatched, optSigOf]
      rw [List.map_cons, List.foldl_cons, hpush,
        foldl_pushMatched_opt rest hrest (acc ++ [optSigOf a]) d']
      simp [List.append_assoc]

/- The two implementations compute the same test verdict for matchers built
from a call-expression signature with the default traversal keys. -/
theorem test0_eq_test (sig : Node) (hce : sig.ty = "CallExpression") (n : Node) :
    (Matcher0.make sig).test n = (Matcher.make sig none).test n := by
  have hsig : isCallExpression sig = true := by simp [isCallExpression, hce]
  unfold Matcher0.test Matcher.test isCalleeMatchedV0 isCalleeMatched Matcher0.make Matcher.make
  by_cases hcn : isCallExpression n
  · by_cases hd : astDepth (calleeOf n) defaultVisitorKeys =
        astDepth (calleeOf sig) defaultVisitorKeys
    · simp [hsig, hcn, hd, isSameAstDepth]
    · simp [hsig, hcn, isSameAstDepth, bne, hd, Ne.symm hd]
  · simp [hsig, hcn]

/-- Claim C10 (amended): for every matcher built (with default traversal
keys) from a call-expression signature the two implementations agree on
test at every candidate; matchArgument agrees as well — the earlier
implementation returning normally — whenever the signature declares all
mandatory parameters before all optional ones and the candidate node either
occurs in the parent's argument list, occupies its callee slot, or the
parent does not match.  (As stated the claim is false: for f([a], b) the
results differ, see the counterexample.) -/
theorem claim10_implementations_agree (sig : Node) (hce : sig.ty = "CallExpression")
    (currentNode parentNode : Node) :
    (∀ n : Node, (Matcher0.make sig).test n = (Matcher.make sig none).test n) ∧
    (∀ mands opts' : List Node, argumentsOf sig = mands ++ opts' →
      (∀ a ∈ mands, a.ty = "Identifier") →
      (∀ a ∈ opts', a.ty = "ArrayExpression") →
      (currentNode ∈ argumentsOf parentNode ∨
        (Matcher.make sig none).test parentNode = false ∨
        isCalleeOfParent currentNode parentNode = true) →
      (Matcher0.make sig).matchArgument currentNode parentNode =
        .ok ((Matcher.make sig none).matchArgument currentNode parentNode)) := by
  have htest := test0_eq_test sig hce
  refine ⟨htest, ?_⟩
  intro mands opts' hsplit hm ho hfound
  by_cases hcp : isCalleeOfParent currentNode parentNode
  · simp [Matcher.matchArgument, Matcher0.matchArgument, hcp]
  · by_cases ht : (Matcher.make sig none).test parentNode = true
    · have ht0 : (Matcher0.make sig).test parentNode = true := (htest parentNode).trans ht
      have hmem : currentNode ∈ argumentsOf parentNode := by
        rcases hfound with h | h | h
        · exact h
        · rw [ht] at h; exact absurd h (by simp)
        · exact absurd h hcp
      obtain ⟨i, hidx, hilt⟩ := indexOfNode_mem _ _ hmem
      have hk : (Matcher.make sig none).numMinArgs = mands.length := by
        have hfm : List.filter identifiers mands = mands :=
          List.filter_eq_self.mpr (fun a ha => by simp [identifiers, hm a ha])
        have hfo : List.filter identifiers opts' = [] :=
          List.filter_eq_nil.mpr (fun a ha => by simp [identifiers, ho a ha])
        simp [Matcher.make, hsplit, List.filter_append, hfm, hfo]
      have hmaxargs : (Matcher.make sig none).numMaxArgs = mands.length + opts'.length := by
        simp [Matcher.make, hsplit]
      have hbounds := ((Matcher.test_true_iff _ _).mp ht).2.2.2
      rw [hk, hmaxargs] at hbounds
      have hLk : mands.length ≤ (argumentsOf parentNode).length := hbounds.1
      have hLmax : (argumentsOf parentNode).length ≤ mands.length + opts'.length := hbounds.2
      have hms : (((Matcher.make sig none).argumentSignatures).foldl pushMatched
          ([], (argumentsOf parentNode).length - (Matcher.make sig none).numMinArgs)).1 =
          mands.map mandSigOf ++
            (opts'.take ((argumentsOf parentNode).length - mands.length)).map optSigOf := by
        have hsigs : (Matcher.make sig none).argumentSignatures =
            mands.map toArgumentSignature ++ opts'.map toArgumentSignature := by
          simp [Matcher.argumentSignatures, Matcher.make, hsplit]
        rw [hsigs, hk, foldl_pushMatched_mand mands hm _ _ _, foldl_pushMatched_opt opts' ho]
        simp
      have hargs0 : argumentsOf (Matcher0.make sig).signatureAst = argumentsOf sig := rfl
      rw [Matcher.matchArgument, Matcher0.matchArgument]
      simp only [hcp, if_false, ht, ht0, if_true, hidx, hms]
      rcases Nat.lt_or_ge i mands.length with hcase | hcase
      · have h1 : (argumentsOf sig).get? i = some (mands.get ⟨i, hcase⟩) := by
          rw [hsplit, List.get?_append hcase, List.get?_eq_get hcase]
        have h2 : (mands.map mandSigOf ++
            (opts'.take ((argumentsOf parentNode).length - mands.length)).map optSigOf).get? i =
            some (mandSigOf (mands.get ⟨i, hcase⟩)) := by
          rw [List.get?_append (by simpa using hcase), List.get?_map,
            List.get?_eq_get hcase]
          rfl
        have h3 : argMatchResult (mands.get ⟨i, hcase⟩) =
            some (mandSigOf (mands.get ⟨i, hcase⟩)) := by
          have hty := hm _ (List.get_mem mands i hcase)
          simp only [List.get_eq_getElem] at hty ⊢
          simp [argMatchResult, hty, mandSigOf]
        have h1g : (argumentsOf sig)[i]? = some (mands.get ⟨i, hcase⟩) := by
          rw [← List.get?_eq_getElem?]
          exact h1
        have h2g : (List.map mandSigOf mands ++
            List.take ((argumentsOf parentNode).length - mands.length)
              (List.map optSigOf opts'))[i]? = some (mandSigOf (mands.get ⟨i, hcase⟩)) := by
          rw [← List.map_take, ← List.get?_eq_getElem?]
          exact h2
        simp only [List.get_eq_getElem] at h3
        simp [hargs0, h1g, h2g, h3]
      · have hj1 : i - mands.length < (argumentsOf parentNode).length - mands.length := by
          omega
        have hj2 : i - mands.length < opts'.length := by omega
        have h1 : (argumentsOf sig).get? i = some (opts'.get ⟨i - mands.length, hj2⟩) := by
          rw [hsplit, List.get?_append_right hcase, List.get?_eq_get hj2]
        have h2 : (mands.map mandSigOf ++
            (opts'.take ((argumentsOf parentNode).length - mands.length)).map optSigOf).get? i =
            some (optSigOf (opts'.get ⟨i - mands.length, hj2⟩)) := by
          rw [List.get?_append_right (by simpa using hcase), List.get?_map, List.length_map,
            List.get?_take hj1, List.get?_eq_get hj2]
          rfl
        have h3 : argMatchResult (opts'.get ⟨i - mands.length, hj2⟩) =
            some (optSigOf (opts'.get ⟨i - mands.length, hj2⟩)) := by
          have hty := ho _ (List.get_mem opts' (i - mands.length) hj2)
          simp only [List.get_eq_getElem] at hty ⊢
          simp [argMatchResult, hty, optSigOf]
        have h1g : (argumentsOf sig)[i]? = some (opts'.get ⟨i - mands.length, hj2⟩) := by
          rw [← List.get?_eq_getElem?]
          exact h1
        have h2g : (List.map mandSigOf mands ++
            List.take ((argumentsOf parentNode).length - mands.length)
              (List.map optSigOf opts'))[i]? =
            some (optSigOf (opts'.get ⟨i - mands.length, hj2⟩)) := by
          rw [← List.map_take, ← List.get?_eq_getElem?]
          exact h2
        simp only [List.get_eq_getElem] at h3
        simp [hargs0, h1g, h2g, h3]
    · have ht0 : (Matcher0.make sig).test parentNode = false := by
        rw [htest parentNode]
        exact Bool.not_eq_true _ ▸ (by simpa using ht)
      simp [Matcher.matchArgument, Matcher0.matchArgument, hcp,
        Bool.not_eq_true _ ▸ (by simpa using ht : ¬(Matcher.make sig none).test parentNode = true), ht0]

/-- Counterexample for claim C10 as stated: for the signature f([a], b),
whose optional parameter precedes the mandatory one, the two implementations
disagree on argument 1 of the candidate f(1): the current one reports the
mandatory descriptor b, the earlier one the optional descriptor a. -/
theorem claim10_counterexample :
    (Matcher.make sigFoptA none).matchArgument litOne candF1 =
        some { name := "b", kind := "mandatory" } ∧
    (Matcher0.make sigFoptA).matchArgument litOne candF1 =
        .ok (some { name := "a", kind := "optional" }) ∧
    (Matcher0.make sigFoptA).matchArgument litOne candF1 ≠
      .ok ((Matcher.make sigFoptA none).matchArgument litOne candF1) :=
  ⟨by decide, by decide, by decide⟩

/-- Witness for the amended claim C10 at the mandatory-first signature
f(a, [b]) and candidate f(1, 2). -/
theorem claim10_witness :
    (∀ n : Node, (Matcher0.make sigFab).test n = (Matcher.make sigFab none).test n) ∧
    (Matcher0.make sigFab).matchArgument litOne' candF12 =
      .ok ((Matcher.make sigFab none).matchArgument litOne' candF12) := by
  have h := claim10_implementations_agree sigFab (by decide) litOne' candF12
  exact ⟨h.1, h.2 [identN 3 "a"] [arrayN 4 [identN 5 "b"]] (by decide)
    (by intro a ha; simp at ha; subst ha; decide)
    (by intro a ha; simp at ha; subst ha; decide)
    (.inl (by decide))⟩
